import Mathlib

/- Shallow embedding of the SpinPics wheel engine (src/lib/wheel.ts) and
wheel renderer (src/lib/animation.ts).  JavaScript numbers are modelled as
exact rationals; Math.PI is modelled as the exact rational value of the
IEEE-754 double closest to pi.  JavaScript Maps are modelled as
insertion-ordered association lists, and the IndexedDB photo-blob store as
a function from photo ids to optional blobs. -/

namespace SpinPics

/-- Math.PI: the exact rational value of the 64-bit float nearest pi. -/
def mathPI : ℚ := 884279719003555 / 281474976710656

/-- 2 * Math.PI, the full circle used throughout wheel.ts. -/
def twoPI : ℚ := 2 * mathPI

lemma mathPI_pos : 0 < mathPI := by norm_num [mathPI]

lemma twoPI_pos : 0 < twoPI := by norm_num [twoPI, mathPI]

/-- SpinMode from src/types/index.ts. -/
inductive SpinMode
  | static
  | consume
deriving DecidableEq

/-- Category from src/types/index.ts. -/
structure Category where
  categoryId : String
  name : String
  color : String
deriving DecidableEq

/-- Photo from src/types/index.ts. -/
structure Photo where
  photoId : String
  chance : ℚ
  categoryId : String
deriving DecidableEq

/-- Gallery from src/types/index.ts. -/
structure Gallery where
  galleryId : String
  name : String
  spinMode : SpinMode
  categories : List Category
  photos : List Photo
deriving DecidableEq

/-- Image blobs are never inspected by the engine; modelled as strings. -/
abbrev Blob := String

/-- WheelSegment from src/types/index.ts. -/
structure WheelSegment where
  photoId : String
  photo : Blob
  category : Category
  chance : ℚ
  startAngle : ℚ
  endAngle : ℚ
  normalizedChance : ℚ
deriving DecidableEq

/-- A JavaScript Map from photo ids to numbers, as an insertion-ordered
association list; mapSet keeps keys unique. -/
abbrev ChanceMap := List (String × ℚ)

/-- Map.get. -/
def mapGet (m : ChanceMap) (k : String) : Option ℚ :=
  (m.find? (fun e => e.1 == k)).map (fun e => e.2)

/-- The idiom `map.get(k) || 0` used throughout wheel.ts. -/
def mapGetD (m : ChanceMap) (k : String) : ℚ :=
  (mapGet m k).getD 0

/-- Map.has. -/
def hasKey (m : ChanceMap) (k : String) : Bool :=
  m.any (fun e => e.1 == k)

/-- Map.set: replaces the value of an existing key in place, otherwise
appends the new entry in insertion order. -/
def mapSet (m : ChanceMap) (k : String) (v : ℚ) : ChanceMap :=
  if hasKey m k then m.map (fun e => if e.1 == k then (k, v) else e)
  else m ++ [(k, v)]

/-- Array.from(map.values()). -/
def mapValues (m : ChanceMap) : List ℚ :=
  m.map (fun e => e.2)

/-- PlaySession from src/types/index.ts (the fields actually produced by
WheelEngine.createPlaySession). -/
structure PlaySession where
  galleryId : String
  spinMode : SpinMode
  currentChances : ChanceMap
  originalChances : ChanceMap
deriving DecidableEq

/-- WheelEngine.createPlaySession (src/lib/wheel.ts lines 16-32). -/
def createPlaySession (gallery : Gallery) : PlaySession :=
  { galleryId := gallery.galleryId
    spinMode := gallery.spinMode
    currentChances := gallery.photos.foldl (fun m p => mapSet m p.photoId p.chance) []
    originalChances := gallery.photos.foldl (fun m p => mapSet m p.photoId p.chance) [] }

/-- WheelEngine.resetPlaySession (src/lib/wheel.ts lines 37-49): rebuilds
currentChances from originalChances entry by entry. -/
def resetPlaySession (session : PlaySession) : PlaySession :=
  { session with
    currentChances := session.originalChances.foldl (fun m e => mapSet m e.1 e.2) [] }

/-- The `photos.filter(photo => currentChance > 0)` step shared by
spinWheel, generateWheelSegments and getSessionStatistics. -/
def eligiblePhotos (session : PlaySession) (photos : List Photo) : List Photo :=
  photos.filter (fun p => decide (0 < mapGetD session.currentChances p.photoId))

/-- The `reduce((sum, photo) => sum + chance, 0)` total over the eligible
photos. -/
def totalWeight (session : PlaySession) (photos : List Photo) : ℚ :=
  (eligiblePhotos session photos).foldl
    (fun sum p => sum + mapGetD session.currentChances p.photoId) 0

/-- The weighted-selection loop of WheelEngine.spinWheel (lines 79-87):
walks the eligible photos accumulating weight; the first photo whose
cumulative weight reaches randomValue wins. -/
def spinScan (session : PlaySession) (randomValue : ℚ) :
    ℚ → List Photo → Option String
  | _, [] => none
  | currentWeight, p :: rest =>
    let cw := currentWeight + mapGetD session.currentChances p.photoId
    if randomValue ≤ cw then some p.photoId else spinScan session randomValue cw rest

/-- WheelEngine.spinWheel (src/lib/wheel.ts lines 55-91); the call to
Math.random() is passed in explicitly as random01. -/
def spinWheel (session : PlaySession) (photos : List Photo) (random01 : ℚ) :
    Option String :=
  let eligible := eligiblePhotos session photos
  if eligible.isEmpty then none
  else
    let tw := totalWeight session photos
    if tw ≤ 0 then none
    else
      let randomValue := random01 * tw
      match spinScan session randomValue 0 eligible with
      | some winner => some winner
      | none => (eligible.getLast?).map (fun p => p.photoId)

/-- WheelEngine.updateSessionAfterSpin (src/lib/wheel.ts lines 97-113). -/
def updateSessionAfterSpin (session : PlaySession) (winningPhotoId : String) :
    PlaySession :=
  if session.spinMode ≠ SpinMode.consume then session
  else
    let currentChance := mapGetD session.currentChances winningPhotoId
    let newChance := max 0 (currentChance - 1)
    { session with
      currentChances := mapSet session.currentChances winningPhotoId newChance }

/-- The segment-generation loop of WheelEngine.generateWheelSegments
(lines 142-168), from an accumulated start angle.  A photo whose stored
blob is missing or whose category cannot be found is skipped, but the
running angle still advances by its proportional share. -/
def genSegmentsAux (storage : String → Option Blob) (session : PlaySession)
    (categories : List Category) (tw : ℚ) :
    List Photo → ℚ → List WheelSegment
  | [], _ => []
  | p :: rest, currentAngle =>
    let currentChance := mapGetD session.currentChances p.photoId
    let normalizedChance := currentChance / tw
    let segAngle := normalizedChance * 2 * mathPI
    let category := categories.find? (fun c => c.categoryId == p.categoryId)
    let photoBlob := storage p.photoId
    (match photoBlob, category with
     | some b, some c =>
       [{ photoId := p.photoId, photo := b, category := c, chance := currentChance,
          startAngle := currentAngle, endAngle := currentAngle + segAngle,
          normalizedChance := normalizedChance }]
     | _, _ => []) ++ genSegmentsAux storage session categories tw rest (currentAngle + segAngle)

/-- WheelEngine.generateWheelSegments (src/lib/wheel.ts lines 119-171). -/
def generateWheelSegments (storage : String → Option Blob) (session : PlaySession)
    (gallery : Gallery) : List WheelSegment :=
  let eligible := eligiblePhotos session gallery.photos
  if eligible.isEmpty then []
  else
    let tw := totalWeight session gallery.photos
    if tw ≤ 0 then []
    else genSegmentsAux storage session gallery.categories tw eligible 0

/-- Truncation toward zero, as used by the JavaScript % operator. -/
def ratTrunc (q : ℚ) : ℤ :=
  if 0 ≤ q then ⌊q⌋ else ⌈q⌉

/-- The JavaScript remainder a % b (result has the sign of the dividend). -/
def jsRem (a b : ℚ) : ℚ :=
  a - b * (ratTrunc (a / b) : ℚ)

/-- `((targetAngle % (2π)) + (2π)) % (2π)` from getWinningSegment. -/
def normalizeIntoCircle (angle : ℚ) : ℚ :=
  jsRem (jsRem angle twoPI + twoPI) twoPI

/-- WheelEngine.getWinningSegment (src/lib/wheel.ts lines 177-188). -/
def getWinningSegment (segments : List WheelSegment) (targetAngle : ℚ) :
    Option WheelSegment :=
  let normalizedAngle := normalizeIntoCircle targetAngle
  segments.find? (fun s =>
    decide (s.startAngle ≤ normalizedAngle) && decide (normalizedAngle < s.endAngle))

/-- The local `photosWithInvalidCategories` of validateGalleryForPlay
(lines 212-214): photos whose categoryId is not among the gallery's
categories. -/
def photosWithInvalidCategories (gallery : Gallery) : List Photo :=
  gallery.photos.filter
    (fun p => !(gallery.categories.any (fun c => c.categoryId == p.categoryId)))

/-- The errors list of WheelEngine.validateGalleryForPlay (lines 193-224). -/
def validateErrors (gallery : Gallery) : List String :=
  (if gallery.photos.isEmpty then ["Gallery must have at least one photo"] else []) ++
  (if gallery.categories.isEmpty then ["Gallery must have at least one category"] else []) ++
  (if gallery.photos.any (fun p => decide (0 < p.chance)) then []
   else ["At least one photo must have a chance greater than 0"]) ++
  (if 0 < (photosWithInvalidCategories gallery).length then
     [toString (photosWithInvalidCategories gallery).length ++
       " photos have invalid category assignments"]
   else [])

/-- The isValid field returned by WheelEngine.validateGalleryForPlay. -/
def validateGalleryForPlay (gallery : Gallery) : Bool :=
  (validateErrors gallery).isEmpty

/-- The record returned by WheelEngine.getSessionStatistics. -/
structure SessionStatistics where
  totalPhotos : ℕ
  eligiblePhotos : ℕ
  totalCurrentChances : ℚ
  totalOriginalChances : ℚ
  consumedChances : ℚ
deriving DecidableEq

/-- WheelEngine.getSessionStatistics (src/lib/wheel.ts lines 229-254). -/
def getSessionStatistics (session : PlaySession) (gallery : Gallery) :
    SessionStatistics :=
  let eligible := (eligiblePhotos session gallery.photos).length
  let totalCurrent := (mapValues session.currentChances).foldl (fun sum c => sum + c) 0
  let totalOriginal := (mapValues session.originalChances).foldl (fun sum c => sum + c) 0
  { totalPhotos := gallery.photos.length
    eligiblePhotos := eligible
    totalCurrentChances := totalCurrent
    totalOriginalChances := totalOriginal
    consumedChances := totalOriginal - totalCurrent }

/- WheelRenderer (src/lib/animation.ts). -/

/-- First loop of WheelRenderer.normalizeAngle:
`while (angle > Math.PI) angle -= 2 * Math.PI`. -/
def normAngleDown (angle : ℚ) : ℚ :=
  if mathPI < angle then normAngleDown (angle - 2 * mathPI) else angle
termination_by (⌊((angle - mathPI) / (2 * mathPI)) + 1⌋).toNat
decreasing_by
  have hp : (0:ℚ) < 2 * mathPI := by norm_num [mathPI]
  have h0 : (2:ℚ) * mathPI ≠ 0 := ne_of_gt hp
  have hx : (0:ℚ) ≤ (angle - mathPI) / (2 * mathPI) :=
    div_nonneg (by linarith) hp.le
  have h1 : (angle - 2 * mathPI - mathPI) / (2 * mathPI) + 1 =
      (angle - mathPI) / (2 * mathPI) := by field_simp; ring
  rw [h1]
  have h2 : ⌊(angle - mathPI) / (2 * mathPI) + 1⌋ =
      ⌊(angle - mathPI) / (2 * mathPI)⌋ + 1 :=
    Int.floor_add_one ((angle - mathPI) / (2 * mathPI))
  rw [h2]
  have h3 : 0 ≤ ⌊(angle - mathPI) / (2 * mathPI)⌋ := Int.floor_nonneg.mpr hx
  omega

/-- Second loop of WheelRenderer.normalizeAngle:
`while (angle <= -Math.PI) angle += 2 * Math.PI`. -/
def normAngleUp (angle : ℚ) : ℚ :=
  if angle ≤ -mathPI then normAngleUp (angle + 2 * mathPI) else angle
termination_by (⌊((-mathPI - angle) / (2 * mathPI)) + 1⌋).toNat
decreasing_by
  have hp : (0:ℚ) < 2 * mathPI := by norm_num [mathPI]
  have h0 : (2:ℚ) * mathPI ≠ 0 := ne_of_gt hp
  have hx : (0:ℚ) ≤ (-mathPI - angle) / (2 * mathPI) :=
    div_nonneg (by linarith) hp.le
  have h1 : (-mathPI - (angle + 2 * mathPI)) / (2 * mathPI) + 1 =
      (-mathPI - angle) / (2 * mathPI) := by field_simp; ring
  rw [h1]
  have h2 : ⌊(-mathPI - angle) / (2 * mathPI) + 1⌋ =
      ⌊(-mathPI - angle) / (2 * mathPI)⌋ + 1 :=
    Int.floor_add_one ((-mathPI - angle) / (2 * mathPI))
  rw [h2]
  have h3 : 0 ≤ ⌊(-mathPI - angle) / (2 * mathPI)⌋ := Int.floor_nonneg.mpr hx
  omega

/-- WheelRenderer.normalizeAngle (src/lib/animation.ts lines 343-347):
normalizes an angle into the interval (-pi, pi]. -/
def normalizeAngle (angle : ℚ) : ℚ :=
  normAngleUp (normAngleDown angle)

/-- The loop in WheelRenderer.startSpin (lines 182-185):
`while (normalizedTarget <= startAngle) normalizedTarget += Math.PI * 2`. -/
def spinNormalizeTarget (startAngle targetAngle : ℚ) : ℚ :=
  if targetAngle ≤ startAngle then
    spinNormalizeTarget startAngle (targetAngle + mathPI * 2)
  else targetAngle
termination_by (⌊((startAngle - targetAngle) / (mathPI * 2)) + 1⌋).toNat
decreasing_by
  have hp : (0:ℚ) < mathPI * 2 := by norm_num [mathPI]
  have h0 : mathPI * 2 ≠ 0 := ne_of_gt hp
  have hx : (0:ℚ) ≤ (startAngle - targetAngle) / (mathPI * 2) :=
    div_nonneg (by linarith) hp.le
  have h1 : (startAngle - (targetAngle + mathPI * 2)) / (mathPI * 2) + 1 =
      (startAngle - targetAngle) / (mathPI * 2) := by field_simp; ring
  rw [h1]
  have h2 : ⌊(startAngle - targetAngle) / (mathPI * 2) + 1⌋ =
      ⌊(startAngle - targetAngle) / (mathPI * 2)⌋ + 1 :=
    Int.floor_add_one ((startAngle - targetAngle) / (mathPI * 2))
  rw [h2]
  have h3 : 0 ≤ ⌊(startAngle - targetAngle) / (mathPI * 2)⌋ := Int.floor_nonneg.mpr hx
  omega

/-- totalRotation in WheelRenderer.startSpin (line 187): the normalized
target plus `Math.PI * 6` (three extra full clockwise rotations). -/
def startSpinTotalRotation (startAngle targetAngle : ℚ) : ℚ :=
  spinNormalizeTarget startAngle targetAngle + mathPI * 6

/-- The cubic ease-out `1 - Math.pow(1 - progress, 3)` (line 209). -/
def easeOutCubic (progress : ℚ) : ℚ :=
  1 - (1 - progress) ^ 3

/-- currentAngle after a startSpin animation frame at the given progress
(progress is already clamped to at most 1 by the caller); on the final
frame (progress >= 1) the angle is pinned to totalRotation (line 217). -/
def spinAngleAt (startAngle totalRotation progress : ℚ) : ℚ :=
  if 1 ≤ progress then totalRotation
  else startAngle + (totalRotation - startAngle) * easeOutCubic progress

/-- The needle-hit test inside WheelRenderer.getSegmentUnderNeedle
(lines 385-396), for the fixed needle at -pi/2. -/
def needleHit (currentAngle : ℚ) (s : WheelSegment) : Bool :=
  let adjustedStartAngle := normalizeAngle (s.startAngle + currentAngle)
  let adjustedEndAngle := normalizeAngle (s.endAngle + currentAngle)
  let normalizedNeedleAngle := normalizeAngle (-mathPI / 2)
  if adjustedEndAngle < adjustedStartAngle then
    decide (adjustedStartAngle ≤ normalizedNeedleAngle) ||
      decide (normalizedNeedleAngle ≤ adjustedEndAngle)
  else
    decide (adjustedStartAngle ≤ normalizedNeedleAngle) &&
      decide (normalizedNeedleAngle ≤ adjustedEndAngle)

/-- WheelRenderer.getSegmentUnderNeedle (src/lib/animation.ts
lines 369-401). -/
def getSegmentUnderNeedle (segments : List WheelSegment) (currentAngle : ℚ) :
    Option WheelSegment :=
  if segments.length = 0 then none
  else if segments.length = 1 then segments.head?
  else
    match segments.find? (needleHit currentAngle) with
    | some s => some s
    | none => segments.head?

/- Heap model for the frame properties of the session operations: JavaScript
Map objects live in a store addressed by references, so that "the operation
does not mutate its input maps" is expressible.  The pure functions above
are the same code with the store threading erased. -/

/-- The store of allocated Map objects. -/
abbrev Store := List ChanceMap

/-- Dereference a Map. -/
def readRef (st : Store) (r : ℕ) : ChanceMap :=
  st.getD r []

/-- In-place mutation of the Map at reference r (Map.prototype.set). -/
def writeRef (st : Store) (r : ℕ) (m : ChanceMap) : Store :=
  st.set r m

/-- `new Map(...)`: allocates a fresh Map object. -/
def alloc (st : Store) (m : ChanceMap) : Store × ℕ :=
  (st ++ [m], st.length)

/-- A play session whose chance maps are store references. -/
structure PlaySessionRef where
  galleryId : String
  spinMode : SpinMode
  currentChancesRef : ℕ
  originalChancesRef : ℕ
deriving DecidableEq

/-- WheelEngine.createPlaySession against the store: allocates two fresh
Maps and fills them with Map.set writes while iterating gallery.photos. -/
def createPlaySessionSt (st : Store) (gallery : Gallery) :
    Store × PlaySessionRef :=
  let a1 := alloc st []
  let a2 := alloc a1.1 []
  let ccRef := a1.2
  let ocRef := a2.2
  let st2 := gallery.photos.foldl
    (fun s p =>
      let s1 := writeRef s ccRef (mapSet (readRef s ccRef) p.photoId p.chance)
      writeRef s1 ocRef (mapSet (readRef s1 ocRef) p.photoId p.chance))
    a2.1
  (st2, { galleryId := gallery.galleryId, spinMode := gallery.spinMode,
          currentChancesRef := ccRef, originalChancesRef := ocRef })

/-- WheelEngine.resetPlaySession against the store: allocates a fresh Map
and fills it from the entries of originalChances. -/
def resetPlaySessionSt (st : Store) (session : PlaySessionRef) :
    Store × PlaySessionRef :=
  let a := alloc st []
  let r := a.2
  let st2 := (readRef st session.originalChancesRef).foldl
    (fun s e => writeRef s r (mapSet (readRef s r) e.1 e.2)) a.1
  (st2, { session with currentChancesRef := r })

/-- WheelEngine.updateSessionAfterSpin against the store: in consume mode
allocates `new Map(session.currentChances)` and calls set on the copy. -/
def updateSessionAfterSpinSt (st : Store) (session : PlaySessionRef)
    (winningPhotoId : String) : Store × PlaySessionRef :=
  if session.spinMode ≠ SpinMode.consume then (st, session)
  else
    let a := alloc st (readRef st session.currentChancesRef)
    let r := a.2
    let currentChance := mapGetD (readRef a.1 r) winningPhotoId
    let st2 := writeRef a.1 r
      (mapSet (readRef a.1 r) winningPhotoId (max 0 (currentChance - 1)))
    (st2, { session with currentChancesRef := r })


/- Helper lemmas about the Map model. -/

/-- The keys of a chance map, in insertion order. -/
def keysOf (m : ChanceMap) : List String :=
  m.map Prod.fst

lemma mapSet_of_hasKey (m : ChanceMap) (k : String) (v : ℚ) (h : hasKey m k = true) :
    mapSet m k v = m.map (fun e => if e.1 == k then (k, v) else e) := by
  simp [mapSet, h]

lemma mapSet_of_not_hasKey (m : ChanceMap) (k : String) (v : ℚ) (h : hasKey m k = false) :
    mapSet m k v = m ++ [(k, v)] := by
  simp [mapSet, h]

lemma find?_mapSet_self (k : String) (v : ℚ) :
    ∀ m : ChanceMap, (mapSet m k v).find? (fun e => e.1 == k) = some (k, v) := by
  intro m
  induction m with
  | nil => simp [mapSet, hasKey]
  | cons e t ih =>
    by_cases he : e.1 = k
    · simp [mapSet, hasKey, he]
    · have hne : (e.1 == k) = false := by simp [he]
      have hKeyCons : hasKey (e :: t) k = hasKey t k := by
        simp [hasKey, List.any_cons, hne]
      by_cases ht : hasKey t k
      · rw [mapSet_of_hasKey _ _ _ (hKeyCons ▸ ht)]
        rw [List.map_cons, if_neg (by simp [he])]
        rw [List.find?_cons_of_neg _ (by simp [he])]
        rw [← mapSet_of_hasKey _ _ _ ht]
        exact ih
      · rw [mapSet_of_not_hasKey _ _ _ (by rw [hKeyCons]; simpa using ht)]
        rw [List.cons_append, List.find?_cons_of_neg _ (by simp [he])]
        rw [← mapSet_of_not_hasKey _ _ _ (by simpa using ht)]
        exact ih

lemma mapGet_mapSet_self (m : ChanceMap) (k : String) (v : ℚ) :
    mapGet (mapSet m k v) k = some v := by
  simp [mapGet, find?_mapSet_self]

lemma mapGetD_mapSet_self (m : ChanceMap) (k : String) (v : ℚ) :
    mapGetD (mapSet m k v) k = v := by
  simp [mapGetD, mapGet_mapSet_self]

/- Facts about updateSessionAfterSpin used by several claims. -/

lemma updateSessionAfterSpin_spinMode (s : PlaySession) (id : String) :
    (updateSessionAfterSpin s id).spinMode = s.spinMode := by
  unfold updateSessionAfterSpin
  split <;> rfl

lemma updateSessionAfterSpin_originalChances (s : PlaySession) (id : String) :
    (updateSessionAfterSpin s id).originalChances = s.originalChances := by
  unfold updateSessionAfterSpin
  split <;> rfl

lemma updateSessionAfterSpin_static (s : PlaySession) (id : String)
    (h : s.spinMode = SpinMode.static) : updateSessionAfterSpin s id = s := by
  unfold updateSessionAfterSpin
  rw [if_pos (by simp [h])]

lemma updateSessionAfterSpin_consume_get (s : PlaySession) (id : String)
    (h : s.spinMode = SpinMode.consume) :
    mapGetD (updateSessionAfterSpin s id).currentChances id =
      max 0 (mapGetD s.currentChances id - 1) := by
  unfold updateSessionAfterSpin
  rw [if_neg (by simp [h])]
  simp [mapGetD_mapSet_self]

lemma foldl_update_static (s : PlaySession) (h : s.spinMode = SpinMode.static) :
    ∀ results : List String, results.foldl updateSessionAfterSpin s = s := by
  intro results
  induction results with
  | nil => rfl
  | cons r rs ih => rw [List.foldl_cons, updateSessionAfterSpin_static s r h]; exact ih

lemma iterate_update_spinMode (id : String) (s : PlaySession) :
    ∀ n : ℕ, ((fun x => updateSessionAfterSpin x id)^[n] s).spinMode = s.spinMode := by
  intro n
  induction n with
  | zero => rfl
  | succ n ih =>
    rw [Function.iterate_succ_apply']
    rw [updateSessionAfterSpin_spinMode]
    exact ih

lemma iterate_update_nonneg (s : PlaySession) (id : String)
    (h : s.spinMode = SpinMode.consume) (n : ℕ) :
    0 ≤ mapGetD ((fun x => updateSessionAfterSpin x id)^[n + 1] s).currentChances id := by
  rw [Function.iterate_succ_apply']
  have hmode : ((fun x => updateSessionAfterSpin x id)^[n] s).spinMode = SpinMode.consume := by
    rw [iterate_update_spinMode]; exact h
  rw [updateSessionAfterSpin_consume_get _ _ hmode]
  exact le_max_left _ _

/- C4: update-after-spin semantics. -/

/-- C4: updateSessionAfterSpin in static (persistent) mode returns the
session unchanged, for any winning photo id and any sequence of results,
so total current chances are unchanged; in consume (depleting) mode it
sets the winning photo's remaining chance to max 0 (old - 1), and repeated
consume updates for the same photo never drive its chance below 0. -/
theorem C4_update_after_spin (session : PlaySession) (gallery : Gallery)
    (winningPhotoId : String) (results : List String) (n : ℕ) :
    (session.spinMode = SpinMode.static →
      updateSessionAfterSpin session winningPhotoId = session ∧
      results.foldl updateSessionAfterSpin session = session ∧
      (getSessionStatistics (results.foldl updateSessionAfterSpin session)
          gallery).totalCurrentChances
        = (getSessionStatistics session gallery).totalCurrentChances) ∧
    (session.spinMode = SpinMode.consume →
      mapGetD (updateSessionAfterSpin session winningPhotoId).currentChances
          winningPhotoId
        = max 0 (mapGetD session.currentChances winningPhotoId - 1) ∧
      0 ≤ mapGetD ((fun s => updateSessionAfterSpin s winningPhotoId)^[n + 1]
          session).currentChances winningPhotoId) := by
  constructor
  · intro h
    refine ⟨updateSessionAfterSpin_static _ _ h, foldl_update_static _ h _, ?_⟩
    rw [foldl_update_static _ h]
  · intro h
    exact ⟨updateSessionAfterSpin_consume_get _ _ h, iterate_update_nonneg _ _ h n⟩

/-- A concrete static-mode session for the C4 witness. -/
def c4sessionStatic : PlaySession :=
  { galleryId := "g", spinMode := SpinMode.static
    currentChances := [("a", 3), ("b", 1)], originalChances := [("a", 3), ("b", 1)] }

/-- A concrete consume-mode session for the C4 witness. -/
def c4sessionConsume : PlaySession :=
  { galleryId := "g", spinMode := SpinMode.consume
    currentChances := [("a", 3)], originalChances := [("a", 3)] }

/-- A throwaway gallery for the C4 witness. -/
def c4gallery : Gallery :=
  { galleryId := "g", name := "g", spinMode := SpinMode.static
    categories := [], photos := [] }

theorem C4_witness :
    updateSessionAfterSpin c4sessionStatic "a" = c4sessionStatic ∧
    mapGetD (updateSessionAfterSpin c4sessionConsume "a").currentChances "a"
      = max 0 (mapGetD c4sessionConsume.currentChances "a" - 1) ∧
    0 ≤ mapGetD ((fun s => updateSessionAfterSpin s "a")^[3 + 1]
        c4sessionConsume).currentChances "a" :=
  ⟨((C4_update_after_spin c4sessionStatic c4gallery "a" [] 0).1 rfl).1,
   ((C4_update_after_spin c4sessionConsume c4gallery "a" [] 3).2 rfl).1,
   ((C4_update_after_spin c4sessionConsume c4gallery "a" [] 3).2 rfl).2⟩

/- C7: reset restores exactly. -/

lemma hasKey_iff_mem (m : ChanceMap) (k : String) :
    hasKey m k = true ↔ k ∈ keysOf m := by
  simp [hasKey, keysOf, List.any_eq_true, List.mem_map, beq_iff_eq]

lemma keysOf_mapSet_of_hasKey (m : ChanceMap) (k : String) (v : ℚ)
    (h : hasKey m k = true) : keysOf (mapSet m k v) = keysOf m := by
  rw [mapSet_of_hasKey _ _ _ h]
  unfold keysOf
  rw [List.map_map]
  apply List.map_congr_left
  intro e _
  by_cases he : e.1 = k
  · simp [he]
  · simp [he]

lemma keysOf_mapSet_nodup (m : ChanceMap) (k : String) (v : ℚ)
    (h : (keysOf m).Nodup) : (keysOf (mapSet m k v)).Nodup := by
  by_cases hk : hasKey m k
  · rw [keysOf_mapSet_of_hasKey _ _ _ hk]; exact h
  · rw [mapSet_of_not_hasKey _ _ _ (by simpa using hk)]
    unfold keysOf
    rw [List.map_append, List.nodup_append]
    refine ⟨h, List.nodup_singleton k, ?_⟩
    intro a ha hb
    simp at hb
    subst hb
    exact hk ((hasKey_iff_mem m a).mpr ha)

lemma build_nodup_aux (photos : List Photo) :
    ∀ acc : ChanceMap, (keysOf acc).Nodup →
      (keysOf (photos.foldl (fun m p => mapSet m p.photoId p.chance) acc)).Nodup := by
  induction photos with
  | nil => intro acc h; exact h
  | cons p rest ih =>
    intro acc h
    rw [List.foldl_cons]
    exact ih _ (keysOf_mapSet_nodup _ _ _ h)

lemma build_nodup (photos : List Photo) :
    (keysOf (photos.foldl (fun m p => mapSet m p.photoId p.chance) [])).Nodup :=
  build_nodup_aux photos [] (by simp [keysOf])

lemma foldl_mapSet_eq_append :
    ∀ (m acc : ChanceMap), (keysOf (acc ++ m)).Nodup →
      m.foldl (fun a e => mapSet a e.1 e.2) acc = acc ++ m := by
  intro m
  induction m with
  | nil => intro acc _; simp
  | cons e t ih =>
    intro acc h
    have hku : keysOf (acc ++ e :: t) = keysOf acc ++ e.1 :: keysOf t := by
      simp [keysOf]
    have hnotin : e.1 ∉ keysOf acc := by
      rw [hku, List.nodup_append] at h
      intro hmem
      exact h.2.2 hmem (by simp)
    have hkf : hasKey acc e.1 = false := by
      cases hcase : hasKey acc e.1
      · rfl
      · exact absurd ((hasKey_iff_mem acc e.1).mp hcase) hnotin
    have hset : mapSet acc e.1 e.2 = acc ++ [e] := by
      rw [mapSet_of_not_hasKey _ _ _ hkf]
    rw [List.foldl_cons, hset]
    have hassoc : (acc ++ [e]) ++ t = acc ++ e :: t := by simp
    rw [show acc ++ e :: t = (acc ++ [e]) ++ t by simp] at h
    have := ih (acc ++ [e]) h
    rw [this, hassoc]

lemma rebuild_self (m : ChanceMap) (h : (keysOf m).Nodup) :
    m.foldl (fun a e => mapSet a e.1 e.2) [] = m := by
  have := foldl_mapSet_eq_append m [] (by simpa using h)
  simpa using this

lemma foldl_update_originalChances (s : PlaySession) (ws : List String) :
    (ws.foldl updateSessionAfterSpin s).originalChances = s.originalChances := by
  induction ws generalizing s with
  | nil => rfl
  | cons w rest ih =>
    rw [List.foldl_cons, ih, updateSessionAfterSpin_originalChances]

/-- C7: after any sequence of consume-mode updates, resetPlaySession
restores every remaining chance to its original value, so the statistics
report total current chances equal to total original chances and zero
consumed chances. -/
theorem C7_reset_restores (gallery : Gallery) (winners : List String) :
    (resetPlaySession (winners.foldl updateSessionAfterSpin
        (createPlaySession gallery))).currentChances
      = (winners.foldl updateSessionAfterSpin
        (createPlaySession gallery)).originalChances ∧
    (∀ photoId : String,
      mapGet (resetPlaySession (winners.foldl updateSessionAfterSpin
          (createPlaySession gallery))).currentChances photoId
        = mapGet (winners.foldl updateSessionAfterSpin
          (createPlaySession gallery)).originalChances photoId) ∧
    (getSessionStatistics (resetPlaySession (winners.foldl updateSessionAfterSpin
        (createPlaySession gallery))) gallery).totalCurrentChances
      = (getSessionStatistics (resetPlaySession (winners.foldl updateSessionAfterSpin
        (createPlaySession gallery))) gallery).totalOriginalChances ∧
    (getSessionStatistics (resetPlaySession (winners.foldl updateSessionAfterSpin
        (createPlaySession gallery))) gallery).consumedChances = 0 := by
  have hOrig : (winners.foldl updateSessionAfterSpin
      (createPlaySession gallery)).originalChances
      = gallery.photos.foldl (fun m p => mapSet m p.photoId p.chance) [] := by
    rw [foldl_update_originalChances]
    rfl
  have hNodup : (keysOf (winners.foldl updateSessionAfterSpin
      (createPlaySession gallery)).originalChances).Nodup := by
    rw [hOrig]; exact build_nodup _
  have hCC : (resetPlaySession (winners.foldl updateSessionAfterSpin
      (createPlaySession gallery))).currentChances
      = (winners.foldl updateSessionAfterSpin
        (createPlaySession gallery)).originalChances := by
    unfold resetPlaySession
    exact rebuild_self _ hNodup
  have hRO : (resetPlaySession (winners.foldl updateSessionAfterSpin
      (createPlaySession gallery))).originalChances
      = (winners.foldl updateSessionAfterSpin
        (createPlaySession gallery)).originalChances := rfl
  refine ⟨hCC, fun photoId => by rw [hCC], ?_, ?_⟩
  · simp only [getSessionStatistics]
    rw [hCC, hRO]
  · simp only [getSessionStatistics]
    rw [hCC, hRO, sub_self]

/- C3: validateGalleryForPlay characterization. -/

lemma filterBad_pos_iff (g : Gallery) :
    (0 < (photosWithInvalidCategories g).length) ↔
      ∃ p ∈ g.photos, ∀ c ∈ g.categories, c.categoryId ≠ p.categoryId := by
  unfold photosWithInvalidCategories
  rw [List.length_pos_iff_exists_mem]
  constructor
  · rintro ⟨p, hp⟩
    rw [List.mem_filter] at hp
    refine ⟨p, hp.1, ?_⟩
    intro c hc
    have h2 := hp.2
    simp only [Bool.not_eq_true', List.any_eq_false, beq_iff_eq] at h2
    exact h2 c hc
  · rintro ⟨p, hp, hall⟩
    refine ⟨p, List.mem_filter.mpr ⟨hp, ?_⟩⟩
    simp only [Bool.not_eq_true', List.any_eq_false, beq_iff_eq]
    exact hall

lemma validateErrors_eq_nil_iff (g : Gallery) :
    validateErrors g = [] ↔
      (¬ g.photos = [] ∧ ¬ g.categories = [] ∧ (∃ p ∈ g.photos, 0 < p.chance) ∧
        ¬ ∃ p ∈ g.photos, ∀ c ∈ g.categories, c.categoryId ≠ p.categoryId) := by
  unfold validateErrors
  rw [List.append_eq_nil, List.append_eq_nil, List.append_eq_nil]
  have hA : ((if g.photos.isEmpty then ["Gallery must have at least one photo"] else []) = [])
      ↔ ¬ g.photos = [] := by
    split
    · simp_all [List.isEmpty_iff]
    · simp_all [List.isEmpty_iff]
  have hB : ((if g.categories.isEmpty then ["Gallery must have at least one category"] else []) = [])
      ↔ ¬ g.categories = [] := by
    split
    · simp_all [List.isEmpty_iff]
    · simp_all [List.isEmpty_iff]
  have hC : ((if g.photos.any (fun p => decide (0 < p.chance)) then ([] : List String)
        else ["At least one photo must have a chance greater than 0"]) = [])
      ↔ ∃ p ∈ g.photos, 0 < p.chance := by
    split
    · simp_all [List.any_eq_true]
    · simp_all [List.any_eq_true]
  have hD : ((if 0 < (photosWithInvalidCategories g).length then
        [toString (photosWithInvalidCategories g).length ++
          " photos have invalid category assignments"]
      else ([] : List String)) = [])
      ↔ ¬ ∃ p ∈ g.photos, ∀ c ∈ g.categories, c.categoryId ≠ p.categoryId := by
    rw [← filterBad_pos_iff]
    split
    · simp_all
    · simp_all
  rw [hA, hB, hC, hD]
  tauto

/-- C3 (amended): validateGalleryForPlay reports the gallery invalid exactly
when its photo list is empty, or its category list is empty, or no photo has
chance greater than 0, or some photo's category assignment resolves to no
existing category.  (The original claim, that categories are not required for
validity, is refuted by C3_counterexample.) -/
theorem C3_validate_characterization (g : Gallery) :
    validateGalleryForPlay g = false ↔
      (g.photos = [] ∨ g.categories = [] ∨ (∀ p ∈ g.photos, p.chance ≤ 0) ∨
        ∃ p ∈ g.photos, ∀ c ∈ g.categories, c.categoryId ≠ p.categoryId) := by
  have h1 : validateGalleryForPlay g = false ↔ ¬ (validateErrors g = []) := by
    unfold validateGalleryForPlay
    rw [Bool.eq_false_iff, Ne, List.isEmpty_iff]
  rw [h1, validateErrors_eq_nil_iff]
  push_neg
  constructor
  · intro h
    by_cases hp : g.photos = []
    · exact Or.inl hp
    by_cases hc : g.categories = []
    · exact Or.inr (Or.inl hc)
    by_cases hch : ∃ p ∈ g.photos, 0 < p.chance
    · exact Or.inr (Or.inr (Or.inr (h hp hc hch)))
    · refine Or.inr (Or.inr (Or.inl ?_))
      intro p hp2
      by_contra hlt
      push_neg at hlt
      exact hch ⟨p, hp2, hlt⟩
  · intro h hp hc hch
    rcases h with h | h | h | h
    · exact absurd h hp
    · exact absurd h hc
    · obtain ⟨p, hpm, hpos⟩ := hch
      exact absurd hpos (not_lt.mpr (h p hpm))
    · exact h

/-- The C3 counterexample gallery: one photo with positive chance, no
categories. -/
def c3gallery : Gallery :=
  { galleryId := "g", name := "n", spinMode := SpinMode.static
    categories := []
    photos := [{ photoId := "p", chance := 1, categoryId := "c" }] }

/-- C3 counterexample: the code reports this gallery invalid although its
photo list is nonempty and one photo has chance greater than 0, refuting
the claim that invalidity occurs exactly when the photo list is empty or no
photo has positive chance. -/
theorem C3_counterexample :
    validateGalleryForPlay c3gallery = false ∧
    c3gallery.photos ≠ [] ∧
    c3gallery.photos.any (fun p => decide (0 < p.chance)) = true := by
  refine ⟨?_, by simp [c3gallery], ?_⟩
  · simp [validateGalleryForPlay, validateErrors, photosWithInvalidCategories, c3gallery]
  · norm_num [c3gallery, List.any_eq_true]

/- C8: spinWheel never throws; null exactly when no photo is eligible. -/

lemma foldl_add_shift (w : Photo → ℚ) :
    ∀ (l : List Photo) (a : ℚ),
      l.foldl (fun s p => s + w p) a = a + l.foldl (fun s p => s + w p) 0 := by
  intro l
  induction l with
  | nil => intro a; simp
  | cons p t ih =>
    intro a
    rw [List.foldl_cons, List.foldl_cons, ih (a + w p), ih (0 + w p)]
    ring

lemma foldl_add_nonneg (w : Photo → ℚ) :
    ∀ l : List Photo, (∀ p ∈ l, 0 ≤ w p) → 0 ≤ l.foldl (fun s p => s + w p) 0 := by
  intro l
  induction l with
  | nil => intro _; simp
  | cons p t ih =>
    intro h
    rw [List.foldl_cons, foldl_add_shift]
    have h1 : 0 ≤ w p := h p (by simp)
    have h2 : 0 ≤ t.foldl (fun s p => s + w p) 0 := ih (fun q hq => h q (by simp [hq]))
    linarith

lemma foldl_add_pos (w : Photo → ℚ) (l : List Photo)
    (hl : l ≠ []) (h : ∀ p ∈ l, 0 < w p) :
    0 < l.foldl (fun s p => s + w p) 0 := by
  cases l with
  | nil => exact absurd rfl hl
  | cons p t =>
    rw [List.foldl_cons, foldl_add_shift]
    have h1 : 0 < w p := h p (by simp)
    have h2 : 0 ≤ t.foldl (fun s p => s + w p) 0 :=
      foldl_add_nonneg w t (fun q hq => (h q (by simp [hq])).le)
    linarith

lemma mem_eligible_iff (session : PlaySession) (photos : List Photo) (p : Photo) :
    p ∈ eligiblePhotos session photos ↔
      p ∈ photos ∧ 0 < mapGetD session.currentChances p.photoId := by
  unfold eligiblePhotos
  rw [List.mem_filter]
  simp

lemma eligible_eq_nil_iff (session : PlaySession) (photos : List Photo) :
    eligiblePhotos session photos = [] ↔
      ∀ p ∈ photos, ¬ 0 < mapGetD session.currentChances p.photoId := by
  unfold eligiblePhotos
  rw [List.filter_eq_nil_iff]
  simp

lemma totalWeight_pos (session : PlaySession) (photos : List Photo)
    (h : eligiblePhotos session photos ≠ []) : 0 < totalWeight session photos := by
  unfold totalWeight
  exact foldl_add_pos _ _ h
    (fun p hp => ((mem_eligible_iff session photos p).mp hp).2)

lemma spinScan_some_mem (session : PlaySession) (rv : ℚ) :
    ∀ (l : List Photo) (cw : ℚ) (w : String),
      spinScan session rv cw l = some w → ∃ p ∈ l, p.photoId = w := by
  intro l
  induction l with
  | nil => intro cw w h; simp [spinScan] at h
  | cons p t ih =>
    intro cw w h
    rw [spinScan] at h
    split at h
    · refine ⟨p, by simp, ?_⟩
      have h2 : some p.photoId = some w := h
      exact Option.some_injective _ h2
    · obtain ⟨q, hq, hqw⟩ := ih _ w h
      exact ⟨q, by simp [hq], hqw⟩

lemma spinScan_none_lt (session : PlaySession) (rv : ℚ) :
    ∀ (l : List Photo) (cw : ℚ), l ≠ [] →
      spinScan session rv cw l = none →
      cw + l.foldl (fun s p => s + mapGetD session.currentChances p.photoId) 0 < rv := by
  intro l
  induction l with
  | nil => intro cw h; exact absurd rfl h
  | cons p t ih =>
    intro cw _ h
    rw [spinScan] at h
    split at h
    · exact absurd h (by simp)
    · rename_i hnot
      push_neg at hnot
      rw [List.foldl_cons, foldl_add_shift]
      by_cases ht : t = []
      · subst ht
        simpa using hnot
      · have := ih _ ht h
        rw [foldl_add_shift] at this
        linarith

/-- C8: spinWheel never throws: it returns none exactly when no photo has
current chance greater than 0; otherwise it returns the id of a photo with
positive current chance; and for random01 in [0,1) the winner is exactly
the one picked by the cumulative weighted scan over the eligible photos in
list order (the last-photo fallback is never reached). -/
theorem C8_spin_wheel_total (session : PlaySession) (photos : List Photo)
    (random01 : ℚ) :
    (spinWheel session photos random01 = none ↔
      ∀ p ∈ photos, ¬ 0 < mapGetD session.currentChances p.photoId) ∧
    (∀ winner, spinWheel session photos random01 = some winner →
      ∃ p ∈ photos, p.photoId = winner ∧
        0 < mapGetD session.currentChances p.photoId) ∧
    (0 ≤ random01 → random01 < 1 →
      spinWheel session photos random01 =
        spinScan session (random01 * totalWeight session photos) 0
          (eligiblePhotos session photos)) := by
  by_cases hE : eligiblePhotos session photos = []
  · have hsw : spinWheel session photos random01 = none := by
      unfold spinWheel
      rw [if_pos (by simp [hE])]
    refine ⟨?_, ?_, ?_⟩
    · rw [hsw]
      simp only [true_iff]
      exact (eligible_eq_nil_iff session photos).mp hE
    · intro winner hwin
      rw [hsw] at hwin
      exact absurd hwin (by simp)
    · intro _ _
      rw [hsw, hE, spinScan]
  · have htw : 0 < totalWeight session photos := totalWeight_pos session photos hE
    have hne : ¬ (eligiblePhotos session photos).isEmpty = true := by
      simpa [List.isEmpty_iff] using hE
    have hnotle : ¬ totalWeight session photos ≤ 0 := not_le.mpr htw
    have hsw : spinWheel session photos random01 =
        match spinScan session (random01 * totalWeight session photos) 0
            (eligiblePhotos session photos) with
        | some winner => some winner
        | none => ((eligiblePhotos session photos).getLast?).map (fun p => p.photoId) := by
      unfold spinWheel
      rw [if_neg hne, if_neg hnotle]
    have hnotnone : spinWheel session photos random01 ≠ none := by
      rw [hsw]
      cases hscan : spinScan session (random01 * totalWeight session photos) 0
          (eligiblePhotos session photos) with
      | some w => simp
      | none =>
        simp only []
        cases hlast : (eligiblePhotos session photos).getLast? with
        | some p => simp [hlast]
        | none => exact absurd (List.getLast?_eq_none_iff.mp hlast) hE
    refine ⟨?_, ?_, ?_⟩
    · constructor
      · intro h
        exact absurd h hnotnone
      · intro hall
        exact absurd ((eligible_eq_nil_iff session photos).mpr hall) hE
    · intro winner hwin
      rw [hsw] at hwin
      cases hscan : spinScan session (random01 * totalWeight session photos) 0
          (eligiblePhotos session photos) with
      | some w =>
        rw [hscan] at hwin
        simp only [Option.some.injEq] at hwin
        subst hwin
        obtain ⟨p, hp, hpw⟩ := spinScan_some_mem session _ _ _ w hscan
        obtain ⟨hmem, hpos⟩ := (mem_eligible_iff session photos p).mp hp
        exact ⟨p, hmem, hpw, hpos⟩
      | none =>
        rw [hscan] at hwin
        simp only [Option.map_eq_some'] at hwin
        obtain ⟨p, hlast, hpw⟩ := hwin
        have hp : p ∈ eligiblePhotos session photos := List.mem_of_mem_getLast? hlast
        obtain ⟨hmem, hpos⟩ := (mem_eligible_iff session photos p).mp hp
        exact ⟨p, hmem, hpw, hpos⟩
    · intro h0 h1
      have hlt : random01 * totalWeight session photos < totalWeight session photos :=
        mul_lt_of_lt_one_left htw h1
      cases hscan : spinScan session (random01 * totalWeight session photos) 0
          (eligiblePhotos session photos) with
      | some w => rw [hsw, hscan]
      | none =>
        exfalso
        have hlow := spinScan_none_lt session _ _ 0 hE hscan
        unfold totalWeight at hlt hlow
        linarith

/- C2: directional monotonicity of startSpin. -/

lemma spinNormalizeTarget_gt (startAngle targetAngle : ℚ) :
    startAngle < spinNormalizeTarget startAngle targetAngle := by
  refine spinNormalizeTarget.induct startAngle
    (fun t => startAngle < spinNormalizeTarget startAngle t) ?_ ?_ targetAngle
  · intro x hx ih
    rw [spinNormalizeTarget, if_pos hx]
    exact ih
  · intro x hx
    rw [spinNormalizeTarget, if_neg hx]
    exact not_le.mp hx

lemma spinNormalizeTarget_exists_turns (startAngle targetAngle : ℚ) :
    ∃ k : ℕ, spinNormalizeTarget startAngle targetAngle
      = targetAngle + k * (mathPI * 2) := by
  refine spinNormalizeTarget.induct startAngle
    (fun t => ∃ k : ℕ, spinNormalizeTarget startAngle t = t + k * (mathPI * 2))
    ?_ ?_ targetAngle
  · intro x hx ih
    obtain ⟨k, hk⟩ := ih
    refine ⟨k + 1, ?_⟩
    rw [spinNormalizeTarget, if_pos hx, hk]
    push_cast
    ring
  · intro x hx
    refine ⟨0, ?_⟩
    rw [spinNormalizeTarget, if_neg hx]
    push_cast
    ring

/-- C2: for every starting angle and every requested target, the computed
final rotation is strictly greater than the starting angle; the target is
first normalized (by adding whole turns) to strictly exceed the starting
angle, then at least two further full turns are added (the code adds
exactly three); and at animation completion the angle is pinned exactly to
that computed final rotation. -/
theorem C2_spin_monotone (startAngle targetAngle : ℚ) :
    startAngle < startSpinTotalRotation startAngle targetAngle ∧
    startAngle < spinNormalizeTarget startAngle targetAngle ∧
    (∃ k : ℕ, spinNormalizeTarget startAngle targetAngle
      = targetAngle + k * (mathPI * 2)) ∧
    spinNormalizeTarget startAngle targetAngle + 2 * (mathPI * 2)
      ≤ startSpinTotalRotation startAngle targetAngle ∧
    spinAngleAt startAngle (startSpinTotalRotation startAngle targetAngle) 1
      = startSpinTotalRotation startAngle targetAngle := by
  have h1 := spinNormalizeTarget_gt startAngle targetAngle
  have hp := mathPI_pos
  refine ⟨?_, h1, spinNormalizeTarget_exists_turns _ _, ?_, ?_⟩
  · unfold startSpinTotalRotation
    linarith
  · unfold startSpinTotalRotation
    linarith
  · unfold spinAngleAt
    rw [if_pos le_rfl]

/- C6: getSegmentUnderNeedle null and fallback behaviour. -/

/-- C6: getSegmentUnderNeedle returns none exactly when the segment list is
empty; with exactly one segment it returns that segment; with two or more
segments it never returns none, falling back to the first segment when no
adjusted span contains the needle. -/
theorem C6_needle_fallback (segments : List WheelSegment) (currentAngle : ℚ) :
    (getSegmentUnderNeedle segments currentAngle = none ↔ segments = []) ∧
    (∀ s, segments = [s] → getSegmentUnderNeedle segments currentAngle = some s) ∧
    (2 ≤ segments.length →
      (∃ s, getSegmentUnderNeedle segments currentAngle = some s) ∧
      (segments.find? (needleHit currentAngle) = none →
        getSegmentUnderNeedle segments currentAngle = segments.head?)) := by
  refine ⟨⟨?_, ?_⟩, ?_, ?_⟩
  · intro h
    unfold getSegmentUnderNeedle at h
    by_cases h0 : segments.length = 0
    · exact List.length_eq_zero.mp h0
    · exfalso
      rw [if_neg h0] at h
      by_cases h1 : segments.length = 1
      · rw [if_pos h1] at h
        cases segments with
        | nil => exact h0 rfl
        | cons a t => simp at h
      · rw [if_neg h1] at h
        cases hf : segments.find? (needleHit currentAngle) with
        | some s => rw [hf] at h; simp at h
        | none =>
          rw [hf] at h
          cases segments with
          | nil => exact h0 rfl
          | cons a t => simp at h
  · intro h
    subst h
    rfl
  · intro s h
    subst h
    rfl
  · intro h2
    have h0 : ¬ segments.length = 0 := by omega
    have h1 : ¬ segments.length = 1 := by omega
    constructor
    · unfold getSegmentUnderNeedle
      rw [if_neg h0, if_neg h1]
      cases hf : segments.find? (needleHit currentAngle) with
      | some s => exact ⟨s, rfl⟩
      | none =>
        cases segments with
        | nil => simp at h2
        | cons a t => exact ⟨a, rfl⟩
    · intro hf
      unfold getSegmentUnderNeedle
      rw [if_neg h0, if_neg h1, hf]

/-- A concrete category for the C6 witness. -/
def c6cat : Category :=
  { categoryId := "c", name := "cat", color := "#ff0000" }

/-- A concrete segment covering the first half circle, for the C6 witness. -/
def c6seg1 : WheelSegment :=
  { photoId := "a", photo := "blob-a", category := c6cat, chance := 1
    startAngle := 0, endAngle := mathPI, normalizedChance := 1/2 }

/-- A concrete segment covering the second half circle, for the C6 witness. -/
def c6seg2 : WheelSegment :=
  { photoId := "b", photo := "blob-b", category := c6cat, chance := 1
    startAngle := mathPI, endAngle := 2 * mathPI, normalizedChance := 1/2 }

theorem C6_witness :
    getSegmentUnderNeedle [c6seg1] 0 = some c6seg1 ∧
    (∃ s, getSegmentUnderNeedle [c6seg1, c6seg2] 0 = some s) :=
  ⟨(C6_needle_fallback [c6seg1] 0).2.1 c6seg1 rfl,
   ((C6_needle_fallback [c6seg1, c6seg2] 0).2.2 (by decide)).1⟩

/- C10: session operations do not mutate their inputs (heap model). -/

lemma readRef_append (st l : Store) (r : ℕ) (h : r < st.length) :
    readRef (st ++ l) r = readRef st r := by
  unfold readRef
  exact List.getD_append st l [] r h

lemma readRef_writeRef_ne (st : Store) (i q : ℕ) (m : ChanceMap) (h : i ≠ q) :
    readRef (writeRef st i m) q = readRef st q := by
  unfold readRef writeRef
  show ((st.set i m).get? q).getD [] = (st.get? q).getD []
  rw [List.get?_set_ne m st h]

lemma foldl_frame {β : Type} (g : Store → β → Store) (N : ℕ)
    (hg : ∀ (s : Store) (b : β) (r : ℕ), r < N → readRef (g s b) r = readRef s r) :
    ∀ (l : List β) (s : Store) (r : ℕ), r < N →
      readRef (l.foldl g s) r = readRef s r := by
  intro l
  induction l with
  | nil => intro s r _; rfl
  | cons b t ih =>
    intro s r hr
    rw [List.foldl_cons, ih _ r hr, hg s b r hr]

/-- C10: no WheelEngine session operation mutates its input.  In the heap
model, every Map object allocated before the call reads back unchanged
after createPlaySession, resetPlaySession and updateSessionAfterSpin; the
update keeps the originalChances reference, and in static mode it returns
the store and session untouched. -/
theorem C10_no_mutation (st : Store) (gallery : Gallery)
    (session : PlaySessionRef) (winningPhotoId : String) (r : ℕ)
    (hr : r < st.length) :
    readRef (createPlaySessionSt st gallery).1 r = readRef st r ∧
    readRef (resetPlaySessionSt st session).1 r = readRef st r ∧
    readRef (updateSessionAfterSpinSt st session winningPhotoId).1 r
      = readRef st r ∧
    (updateSessionAfterSpinSt st session winningPhotoId).2.originalChancesRef
      = session.originalChancesRef ∧
    (session.spinMode = SpinMode.static →
      updateSessionAfterSpinSt st session winningPhotoId = (st, session)) := by
  refine ⟨?_, ?_, ?_, ?_, ?_⟩
  · simp only [createPlaySessionSt, alloc]
    rw [foldl_frame _ st.length ?hg gallery.photos _ r hr]
    · rw [readRef_append (st ++ [[]]) [[]] r (by simp; omega)]
      exact readRef_append st [[]] r hr
    case hg =>
      intro s p q hq
      dsimp only
      have hlen : (st ++ [[]]).length = st.length + 1 := by simp
      rw [readRef_writeRef_ne _ _ _ _ (by rw [hlen]; omega)]
      rw [readRef_writeRef_ne _ _ _ _ (by omega)]
  · simp only [resetPlaySessionSt, alloc]
    rw [foldl_frame _ st.length ?hg2 _ _ r hr]
    · exact readRef_append st [[]] r hr
    case hg2 =>
      intro s e q hq
      dsimp only
      rw [readRef_writeRef_ne _ _ _ _ (by omega)]
  · unfold updateSessionAfterSpinSt
    split
    · rfl
    · dsimp only [alloc]
      rw [readRef_writeRef_ne _ _ _ _ (by omega)]
      exact readRef_append st [readRef st session.currentChancesRef] r hr
  · unfold updateSessionAfterSpinSt
    split
    · rfl
    · rfl
  · intro h
    unfold updateSessionAfterSpinSt
    rw [if_pos (by simp [h])]

/- C5: getWinningSegment total coverage over a tiling segment list. -/

lemma jsRem_bounds (a b : ℚ) (hb : 0 < b) : -b < jsRem a b ∧ jsRem a b < b := by
  unfold jsRem ratTrunc
  have hba : b * (a / b) = a := by field_simp
  by_cases h : 0 ≤ a / b
  · rw [if_pos h]
    have h1 : (⌊a / b⌋ : ℚ) ≤ a / b := Int.floor_le _
    have h2 : a / b < ⌊a / b⌋ + 1 := Int.lt_floor_add_one _
    have h1b : b * ((⌊a / b⌋ : ℤ) : ℚ) ≤ a := by
      have := mul_le_mul_of_nonneg_left h1 hb.le
      rwa [hba] at this
    have h2b : a < b * ((⌊a / b⌋ : ℤ) : ℚ) + b := by
      have := mul_lt_mul_of_pos_left h2 hb
      rw [mul_add, mul_one, hba] at this
      exact this
    constructor <;> linarith
  · rw [if_neg h]
    have h1 : a / b ≤ ⌈a / b⌉ := Int.le_ceil _
    have h2 : (⌈a / b⌉ : ℚ) < a / b + 1 := Int.ceil_lt_add_one _
    have h1b : a ≤ b * ((⌈a / b⌉ : ℤ) : ℚ) := by
      have := mul_le_mul_of_nonneg_left h1 hb.le
      rwa [hba] at this
    have h2b : b * ((⌈a / b⌉ : ℤ) : ℚ) < a + b := by
      have := mul_lt_mul_of_pos_left h2 hb
      rw [mul_add, mul_one, hba] at this
      exact this
    constructor <;> linarith

lemma jsRem_nonneg (a b : ℚ) (ha : 0 ≤ a) (hb : 0 < b) : 0 ≤ jsRem a b := by
  unfold jsRem ratTrunc
  have h : 0 ≤ a / b := div_nonneg ha hb.le
  rw [if_pos h]
  have h1 : (⌊a / b⌋ : ℚ) ≤ a / b := Int.floor_le _
  have hba : b * (a / b) = a := by field_simp
  have h1b : b * ((⌊a / b⌋ : ℤ) : ℚ) ≤ a := by
    have := mul_le_mul_of_nonneg_left h1 hb.le
    rwa [hba] at this
  linarith

lemma normalizeIntoCircle_mem (angle : ℚ) :
    0 ≤ normalizeIntoCircle angle ∧ normalizeIntoCircle angle < twoPI := by
  unfold normalizeIntoCircle
  have hb := twoPI_pos
  obtain ⟨hr1, _⟩ := jsRem_bounds angle twoPI hb
  have h0 : 0 ≤ jsRem angle twoPI + twoPI := by linarith
  exact ⟨jsRem_nonneg _ _ h0 hb, (jsRem_bounds _ _ hb).2⟩

lemma jsRem_eq_of_mem (x b : ℚ) (hb : 0 < b) (h0 : 0 ≤ x) (h1 : x < b) :
    jsRem x b = x := by
  unfold jsRem ratTrunc
  have hq : 0 ≤ x / b := div_nonneg h0 hb.le
  rw [if_pos hq]
  have hfl : ⌊x / b⌋ = 0 := by
    rw [Int.floor_eq_zero_iff]
    exact ⟨hq, (div_lt_one hb).mpr h1⟩
  rw [hfl]
  push_cast
  ring

lemma jsRem_add_self_eq (x b : ℚ) (hb : 0 < b) (h0 : 0 ≤ x) (h1 : x < b) :
    jsRem (x + b) b = x := by
  unfold jsRem ratTrunc
  have hq : 0 ≤ (x + b) / b := div_nonneg (by linarith) hb.le
  rw [if_pos hq]
  have hfl : ⌊(x + b) / b⌋ = 1 := by
    rw [Int.floor_eq_iff]
    push_cast
    constructor
    · rw [le_div_iff hb]; linarith
    · rw [div_lt_iff hb]; linarith
  rw [hfl]
  push_cast
  ring

lemma normalizeIntoCircle_id (angle : ℚ) (h0 : 0 ≤ angle) (h1 : angle < twoPI) :
    normalizeIntoCircle angle = angle := by
  unfold normalizeIntoCircle
  rw [jsRem_eq_of_mem angle twoPI twoPI_pos h0 h1]
  exact jsRem_add_self_eq angle twoPI twoPI_pos h0 h1

/-- The segment list tiles the circle starting at angle a: each segment
starts where the previous ended, and the last ends at 2*pi. -/
def TilesFrom : ℚ → List WheelSegment → Prop
  | a, [] => a = twoPI
  | a, s :: rest => s.startAngle = a ∧ TilesFrom s.endAngle rest

lemma tiles_find_some (x : ℚ) (hx2 : x < twoPI) :
    ∀ (l : List WheelSegment) (a : ℚ), TilesFrom a l → a ≤ x →
      ∃ s, l.find? (fun s =>
        decide (s.startAngle ≤ x) && decide (x < s.endAngle)) = some s := by
  intro l
  induction l with
  | nil =>
    intro a h ha
    exfalso
    unfold TilesFrom at h
    subst h
    linarith
  | cons s rest ih =>
    intro a h ha
    obtain ⟨hs, hrest⟩ := h
    by_cases hend : x < s.endAngle
    · refine ⟨s, ?_⟩
      rw [List.find?_cons_of_pos]
      simp only [Bool.and_eq_true, decide_eq_true_eq]
      exact ⟨by rw [hs]; exact ha, hend⟩
    · obtain ⟨w, hw⟩ := ih s.endAngle hrest (not_lt.mp hend)
      refine ⟨w, ?_⟩
      rw [List.find?_cons_of_neg]
      · exact hw
      · simp only [Bool.and_eq_true, decide_eq_true_eq]
        rintro ⟨-, h2⟩
        exact hend h2

/-- C5: for a segment list tiling the full circle exactly once,
getWinningSegment returns a segment for every query angle: the angle is
first normalized into the circle, and the tiling covers every normalized
position. -/
theorem C5_needle_total (segments : List WheelSegment)
    (h : TilesFrom 0 segments) (angle : ℚ) :
    ∃ s, getWinningSegment segments angle = some s := by
  unfold getWinningSegment
  obtain ⟨h0, h1⟩ := normalizeIntoCircle_mem angle
  exact tiles_find_some (normalizeIntoCircle angle) h1 segments 0 h h0

/-- A concrete category for the C5 witness. -/
def c5cat : Category :=
  { categoryId := "c", name := "cat", color := "#0000ff" }

/-- A single segment covering the whole circle, for the C5 witness. -/
def c5seg : WheelSegment :=
  { photoId := "a", photo := "blob", category := c5cat, chance := 1
    startAngle := 0, endAngle := twoPI, normalizedChance := 1 }

theorem C5_witness : ∃ s, getWinningSegment [c5seg] 5 = some s :=
  C5_needle_total [c5seg] (by simp [TilesFrom, c5seg]) 5

/- C9: a missing blob or unresolvable category leaves an uncovered gap. -/

/-- The arc a photo contributes: `normalizedChance * 2 * Math.PI`. -/
def segAngleOf (session : PlaySession) (tw : ℚ) (p : Photo) : ℚ :=
  mapGetD session.currentChances p.photoId / tw * 2 * mathPI

/-- The total arc a photo list advances the running angle by. -/
def arcSum (session : PlaySession) (tw : ℚ) (l : List Photo) : ℚ :=
  (l.map (segAngleOf session tw)).sum

lemma arcSum_nil (session : PlaySession) (tw : ℚ) :
    arcSum session tw [] = 0 := rfl

lemma arcSum_cons (session : PlaySession) (tw : ℚ) (p : Photo) (t : List Photo) :
    arcSum session tw (p :: t) = segAngleOf session tw p + arcSum session tw t := by
  simp [arcSum]

lemma arcSum_nonneg (session : PlaySession) (tw : ℚ) (l : List Photo)
    (h : ∀ p ∈ l, 0 ≤ segAngleOf session tw p) : 0 ≤ arcSum session tw l := by
  unfold arcSum
  apply List.sum_nonneg
  intro x hx
  rw [List.mem_map] at hx
  obtain ⟨p, hp, hxe⟩ := hx
  rw [← hxe]
  exact h p hp

lemma genSegmentsAux_append (storage : String → Option Blob)
    (session : PlaySession) (categories : List Category) (tw : ℚ) :
    ∀ (l1 l2 : List Photo) (a : ℚ),
      genSegmentsAux storage session categories tw (l1 ++ l2) a =
        genSegmentsAux storage session categories tw l1 a ++
        genSegmentsAux storage session categories tw l2 (a + arcSum session tw l1) := by
  intro l1
  induction l1 with
  | nil => intro l2 a; simp [genSegmentsAux, arcSum_nil]
  | cons p t ih =>
    intro l2 a
    rw [List.cons_append]
    simp only [genSegmentsAux]
    rw [ih l2 (a + mapGetD session.currentChances p.photoId / tw * 2 * mathPI),
      List.append_assoc]
    have harc : a + mapGetD session.currentChances p.photoId / tw * 2 * mathPI
          + arcSum session tw t
        = a + arcSum session tw (p :: t) := by
      rw [arcSum_cons]
      unfold segAngleOf
      ring
    rw [harc]

lemma genSegmentsAux_bad_cons (storage : String → Option Blob)
    (session : PlaySession) (categories : List Category) (tw : ℚ)
    (b : Photo) (post : List Photo) (x : ℚ)
    (hbad : storage b.photoId = none ∨
      categories.find? (fun c => c.categoryId == b.categoryId) = none) :
    genSegmentsAux storage session categories tw (b :: post) x =
      genSegmentsAux storage session categories tw post
        (x + segAngleOf session tw b) := by
  cases hsb : storage b.photoId with
  | none => simp [genSegmentsAux, hsb, segAngleOf]
  | some bb =>
    cases hbad with
    | inl h => rw [h] at hsb; exact absurd hsb (by simp)
    | inr h => simp [genSegmentsAux, hsb, h, segAngleOf]

lemma genSegmentsAux_bounds (storage : String → Option Blob)
    (session : PlaySession) (categories : List Category) (tw : ℚ) :
    ∀ (l : List Photo) (a : ℚ), (∀ p ∈ l, 0 ≤ segAngleOf session tw p) →
      ∀ s ∈ genSegmentsAux storage session categories tw l a,
        a ≤ s.startAngle ∧ s.endAngle ≤ a + arcSum session tw l := by
  intro l
  induction l with
  | nil => intro a _ s hs; simp [genSegmentsAux] at hs
  | cons p t ih =>
    intro a hpos s hs
    have hp0 : 0 ≤ segAngleOf session tw p := hpos p (by simp)
    have htail0 : 0 ≤ arcSum session tw t :=
      arcSum_nonneg session tw t (fun q hq => hpos q (by simp [hq]))
    simp only [genSegmentsAux] at hs
    rw [List.mem_append] at hs
    cases hs with
    | inl h =>
      cases hsb : storage p.photoId with
      | none => rw [hsb] at h; simp at h
      | some bb =>
        cases hsc : categories.find? (fun c => c.categoryId == p.categoryId) with
        | none => rw [hsb, hsc] at h; simp at h
        | some cat =>
          rw [hsb, hsc] at h
          simp only [List.mem_singleton] at h
          subst h
          rw [arcSum_cons]
          constructor
          · exact le_refl a
          · show a + segAngleOf session tw p ≤ a + (segAngleOf session tw p + arcSum session tw t)
            linarith
    | inr h =>
      obtain ⟨h1, h2⟩ := ih (a + segAngleOf session tw p)
        (fun q hq => hpos q (by simp [hq])) s h
      rw [arcSum_cons]
      constructor
      · linarith
      · linarith

lemma arcSum_formula (session : PlaySession) (tw : ℚ) :
    ∀ l : List Photo, arcSum session tw l =
      (l.foldl (fun s p => s + mapGetD session.currentChances p.photoId) 0) / tw
        * 2 * mathPI := by
  intro l
  induction l with
  | nil => simp [arcSum_nil]
  | cons p t ih =>
    rw [arcSum_cons, List.foldl_cons, foldl_add_shift, ih]
    unfold segAngleOf
    ring

/-- C9: if an eligible photo's stored blob is missing or its category
resolves to no gallery category, generateWheelSegments omits its segment
while the running angle still advances by its proportional share, so the
result decomposes around an uncovered gap and getWinningSegment returns
none for every angle inside that gap. -/
theorem C9_missing_photo_gap (storage : String → Option Blob)
    (session : PlaySession) (gallery : Gallery)
    (pre post : List Photo) (b : Photo)
    (hsplit : eligiblePhotos session gallery.photos = pre ++ b :: post)
    (hbad : storage b.photoId = none ∨
      gallery.categories.find? (fun c => c.categoryId == b.categoryId) = none)
    (theta : ℚ)
    (ht1 : arcSum session (totalWeight session gallery.photos) pre ≤ theta)
    (ht2 : theta < arcSum session (totalWeight session gallery.photos) pre +
      segAngleOf session (totalWeight session gallery.photos) b) :
    getWinningSegment (generateWheelSegments storage session gallery) theta
      = none ∧
    generateWheelSegments storage session gallery =
      genSegmentsAux storage session gallery.categories
        (totalWeight session gallery.photos) pre 0 ++
      genSegmentsAux storage session gallery.categories
        (totalWeight session gallery.photos) post
        (arcSum session (totalWeight session gallery.photos) pre +
          segAngleOf session (totalWeight session gallery.photos) b) := by
  have hEne : eligiblePhotos session gallery.photos ≠ [] := by
    rw [hsplit]; simp
  have htw : 0 < totalWeight session gallery.photos := totalWeight_pos _ _ hEne
  have hposall : ∀ p ∈ eligiblePhotos session gallery.photos,
      0 ≤ segAngleOf session (totalWeight session gallery.photos) p := by
    intro p hp
    have hc : 0 < mapGetD session.currentChances p.photoId :=
      ((mem_eligible_iff _ _ p).mp hp).2
    unfold segAngleOf
    apply mul_nonneg (mul_nonneg (div_nonneg hc.le htw.le) (by norm_num))
    exact mathPI_pos.le
  have hgen : generateWheelSegments storage session gallery =
      genSegmentsAux storage session gallery.categories
        (totalWeight session gallery.photos)
        (eligiblePhotos session gallery.photos) 0 := by
    unfold generateWheelSegments
    rw [if_neg (by simpa [List.isEmpty_iff] using hEne), if_neg (not_le.mpr htw)]
  have hstruct : generateWheelSegments storage session gallery =
      genSegmentsAux storage session gallery.categories
        (totalWeight session gallery.photos) pre 0 ++
      genSegmentsAux storage session gallery.categories
        (totalWeight session gallery.photos) post
        (arcSum session (totalWeight session gallery.photos) pre +
          segAngleOf session (totalWeight session gallery.photos) b) := by
    rw [hgen, hsplit, genSegmentsAux_append,
      genSegmentsAux_bad_cons _ _ _ _ _ _ _ hbad, zero_add]
  refine ⟨?_, hstruct⟩
  have hpre_pos : ∀ p ∈ pre,
      0 ≤ segAngleOf session (totalWeight session gallery.photos) p := by
    intro p hp
    exact hposall p (by rw [hsplit]; exact List.mem_append_left _ hp)
  have hpost_pos : ∀ p ∈ post,
      0 ≤ segAngleOf session (totalWeight session gallery.photos) p := by
    intro p hp
    exact hposall p (by rw [hsplit]; exact List.mem_append_right _ (by simp [hp]))
  have ht0 : 0 ≤ theta :=
    le_trans (arcSum_nonneg _ _ pre hpre_pos) ht1
  have htotal : arcSum session (totalWeight session gallery.photos)
      (eligiblePhotos session gallery.photos) = twoPI := by
    rw [arcSum_formula]
    show totalWeight session gallery.photos / totalWeight session gallery.photos
      * 2 * mathPI = twoPI
    rw [div_self (ne_of_gt htw)]
    unfold twoPI
    ring
  have hsum_split : arcSum session (totalWeight session gallery.photos)
        (pre ++ b :: post)
      = arcSum session (totalWeight session gallery.photos) pre +
        segAngleOf session (totalWeight session gallery.photos) b +
        arcSum session (totalWeight session gallery.photos) post := by
    simp [arcSum]
    ring
  have hsum_two : arcSum session (totalWeight session gallery.photos) pre +
        segAngleOf session (totalWeight session gallery.photos) b +
        arcSum session (totalWeight session gallery.photos) post = twoPI := by
    rw [← hsum_split, ← hsplit]
    exact htotal
  have hpost0 : 0 ≤ arcSum session (totalWeight session gallery.photos) post :=
    arcSum_nonneg _ _ post hpost_pos
  have htln : theta < twoPI := by linarith
  have hid : normalizeIntoCircle theta = theta := normalizeIntoCircle_id theta ht0 htln
  have hdef : getWinningSegment (generateWheelSegments storage session gallery) theta
      = List.find? (fun s =>
          decide (s.startAngle ≤ normalizeIntoCircle theta) &&
          decide (normalizeIntoCircle theta < s.endAngle))
        (generateWheelSegments storage session gallery) := rfl
  rw [hdef, hid, List.find?_eq_none]
  intro s hs
  rw [hstruct, List.mem_append] at hs
  simp only [Bool.and_eq_true, decide_eq_true_eq, not_and]
  intro hs1 hs2
  cases hs with
  | inl h =>
    obtain ⟨b1, b2⟩ := genSegmentsAux_bounds _ _ _ _ pre 0 hpre_pos s h
    rw [zero_add] at b2
    linarith
  | inr h =>
    obtain ⟨b1, b2⟩ := genSegmentsAux_bounds _ _ _ _ post _ hpost_pos s h
    linarith

/- C1: segment generation is one segment per eligible photo, with arc
proportional to its chance. -/

lemma genSegmentsAux_good_forall2 (storage : String → Option Blob)
    (session : PlaySession) (categories : List Category) (tw : ℚ) :
    ∀ (l : List Photo) (a : ℚ),
      (∀ p ∈ l, (∃ bl, storage p.photoId = some bl) ∧
        (∃ c, categories.find? (fun c2 => c2.categoryId == p.categoryId) = some c)) →
      List.Forall₂ (fun (s : WheelSegment) (p : Photo) =>
          s.photoId = p.photoId ∧
          s.chance = mapGetD session.currentChances p.photoId ∧
          s.endAngle - s.startAngle = s.chance / tw * twoPI ∧
          storage p.photoId = some s.photo ∧
          categories.find? (fun c2 => c2.categoryId == p.categoryId) = some s.category)
        (genSegmentsAux storage session categories tw l a) l := by
  intro l
  induction l with
  | nil =>
    intro a _
    show List.Forall₂ _ (genSegmentsAux storage session categories tw [] a) []
    rw [show genSegmentsAux storage session categories tw [] a = [] from rfl]
    exact List.Forall₂.nil
  | cons p t ih =>
    intro a hgood
    obtain ⟨⟨bl, hbl⟩, ⟨c, hc⟩⟩ := hgood p (by simp)
    simp only [genSegmentsAux, hbl, hc, List.singleton_append]
    refine List.Forall₂.cons ?_ (ih _ (fun q hq => hgood q (by simp [hq])))
    refine ⟨rfl, rfl, ?_, hbl, hc⟩
    show a + mapGetD session.currentChances p.photoId / tw * 2 * mathPI - a
      = mapGetD session.currentChances p.photoId / tw * twoPI
    unfold twoPI
    ring

/-- C1 (amended): when every eligible photo has a stored blob and a
resolvable category, creating a play session and generating its wheel
segments yields exactly one segment per eligible photo (not one per unit
of weight), in list order, each spanning the arc (chance/totalWeight)*2*pi
(not the identical arc 2*pi/totalWeight) and each tagged with the
originating photo id and its resolved category. -/
theorem C1_segments_per_photo (storage : String → Option Blob) (gallery : Gallery)
    (hgood : ∀ p ∈ eligiblePhotos (createPlaySession gallery) gallery.photos,
      (∃ bl, storage p.photoId = some bl) ∧
      (∃ c, gallery.categories.find? (fun c2 => c2.categoryId == p.categoryId) = some c)) :
    (generateWheelSegments storage (createPlaySession gallery) gallery).length
      = (eligiblePhotos (createPlaySession gallery) gallery.photos).length ∧
    List.Forall₂ (fun (s : WheelSegment) (p : Photo) =>
        s.photoId = p.photoId ∧
        s.chance = mapGetD (createPlaySession gallery).currentChances p.photoId ∧
        s.endAngle - s.startAngle
          = s.chance / totalWeight (createPlaySession gallery) gallery.photos * twoPI ∧
        storage p.photoId = some s.photo ∧
        gallery.categories.find? (fun c2 => c2.categoryId == p.categoryId)
          = some s.category)
      (generateWheelSegments storage (createPlaySession gallery) gallery)
      (eligiblePhotos (createPlaySession gallery) gallery.photos) := by
  by_cases hE : eligiblePhotos (createPlaySession gallery) gallery.photos = []
  · have hgen : generateWheelSegments storage (createPlaySession gallery) gallery = [] := by
      unfold generateWheelSegments
      rw [if_pos (by simp [hE])]
    rw [hgen, hE]
    exact ⟨rfl, List.Forall₂.nil⟩
  · have htw : 0 < totalWeight (createPlaySession gallery) gallery.photos :=
      totalWeight_pos _ _ hE
    have hgen : generateWheelSegments storage (createPlaySession gallery) gallery =
        genSegmentsAux storage (createPlaySession gallery) gallery.categories
          (totalWeight (createPlaySession gallery) gallery.photos)
          (eligiblePhotos (createPlaySession gallery) gallery.photos) 0 := by
      unfold generateWheelSegments
      rw [if_neg (by simpa [List.isEmpty_iff] using hE), if_neg (not_le.mpr htw)]
    rw [hgen]
    have hf2 := genSegmentsAux_good_forall2 storage (createPlaySession gallery)
      gallery.categories (totalWeight (createPlaySession gallery) gallery.photos)
      (eligiblePhotos (createPlaySession gallery) gallery.photos) 0 hgood
    exact ⟨hf2.length_eq, hf2⟩

/-- The concrete C1 gallery: weights 2 and 1, one category. -/
def c1gallery : Gallery :=
  { galleryId := "g", name := "n", spinMode := SpinMode.static
    categories := [{ categoryId := "c", name := "cat", color := "#123456" }]
    photos := [{ photoId := "A", chance := 2, categoryId := "c" },
               { photoId := "B", chance := 1, categoryId := "c" }] }

/-- A storage with every blob present, for C1. -/
def c1storage : String → Option Blob := fun _ => some "blob"

/-- C1 counterexample: with weights [2, 1] (total weight 3) the engine
produces 2 segments, one per eligible photo, not sum-of-weights = 3
equal-arc segments as claimed. -/
theorem C1_counterexample :
    (generateWheelSegments c1storage (createPlaySession c1gallery) c1gallery).length = 2 ∧
    totalWeight (createPlaySession c1gallery) c1gallery.photos = 3 ∧
    (generateWheelSegments c1storage (createPlaySession c1gallery) c1gallery).length ≠ 3 := by
  have hsess : createPlaySession c1gallery =
      { galleryId := "g", spinMode := SpinMode.static
        currentChances := [("A", 2), ("B", 1)]
        originalChances := [("A", 2), ("B", 1)] } := rfl
  have helconc : eligiblePhotos
      { galleryId := "g", spinMode := SpinMode.static
        currentChances := [("A", 2), ("B", 1)]
        originalChances := [("A", 2), ("B", 1)] } c1gallery.photos
      = [{ photoId := "A", chance := 2, categoryId := "c" },
         { photoId := "B", chance := 1, categoryId := "c" }] := rfl
  have hcats : c1gallery.categories
      = [{ categoryId := "c", name := "cat", color := "#123456" }] := rfl
  have htw : totalWeight
      { galleryId := "g", spinMode := SpinMode.static
        currentChances := [("A", 2), ("B", 1)]
        originalChances := [("A", 2), ("B", 1)] } c1gallery.photos = 3 := by
    simp only [totalWeight, helconc]
    norm_num [mapGetD, mapGet, List.find?, show ("A" == "B") = false from rfl]
  have htw2 : totalWeight (createPlaySession c1gallery) c1gallery.photos = 3 := by
    rw [hsess]; exact htw
  refine ⟨?_, htw2, ?_⟩
  · simp only [generateWheelSegments, hsess, helconc, htw, hcats]
    norm_num [genSegmentsAux, mapGetD, mapGet, List.find?, c1storage,
      show ("A" == "B") = false from rfl]
  · simp only [generateWheelSegments, hsess, helconc, htw, hcats]
    norm_num [genSegmentsAux, mapGetD, mapGet, List.find?, c1storage,
      show ("A" == "B") = false from rfl]

theorem C1_witness :
    (generateWheelSegments c1storage (createPlaySession c1gallery) c1gallery).length
      = (eligiblePhotos (createPlaySession c1gallery) c1gallery.photos).length :=
  (C1_segments_per_photo c1storage c1gallery (by
    intro p hp
    have hmem := ((mem_eligible_iff _ _ p).mp hp).1
    refine ⟨⟨"blob", rfl⟩, ?_⟩
    simp only [c1gallery, List.mem_cons, List.not_mem_nil, or_false] at hmem
    rcases hmem with h | h <;> subst h <;> exact ⟨_, rfl⟩)).1

/-- The concrete C9 gallery: two photos of weight 1 sharing one category. -/
def c9gallery : Gallery :=
  { galleryId := "g", name := "n", spinMode := SpinMode.static
    categories := [{ categoryId := "c", name := "cat", color := "#654321" }]
    photos := [{ photoId := "A", chance := 1, categoryId := "c" },
               { photoId := "B", chance := 1, categoryId := "c" }] }

/-- A storage in which photo A's blob is missing. -/
def c9storage : String → Option Blob :=
  fun photoId => if photoId == "A" then none else some "blob"

theorem C9_witness :
    getWinningSegment
      (generateWheelSegments c9storage (createPlaySession c9gallery) c9gallery)
      (mathPI / 2) = none :=
  (C9_missing_photo_gap c9storage (createPlaySession c9gallery) c9gallery
    [] [{ photoId := "B", chance := 1, categoryId := "c" }]
    { photoId := "A", chance := 1, categoryId := "c" }
    rfl
    (Or.inl rfl)
    (mathPI / 2)
    (by rw [arcSum_nil]; norm_num [mathPI])
    (by
      rw [arcSum_nil, zero_add]
      have hsess : createPlaySession c9gallery =
          { galleryId := "g", spinMode := SpinMode.static
            currentChances := [("A", 1), ("B", 1)]
            originalChances := [("A", 1), ("B", 1)] } := rfl
      have helconc : eligiblePhotos
          { galleryId := "g", spinMode := SpinMode.static
            currentChances := [("A", 1), ("B", 1)]
            originalChances := [("A", 1), ("B", 1)] } c9gallery.photos
          = [{ photoId := "A", chance := 1, categoryId := "c" },
             { photoId := "B", chance := 1, categoryId := "c" }] := rfl
      have htw : totalWeight (createPlaySession c9gallery) c9gallery.photos = 2 := by
        simp only [hsess, totalWeight, helconc]
        norm_num [mapGetD, mapGet, List.find?, show ("A" == "B") = false from rfl]
      have hget : mapGetD (createPlaySession c9gallery).currentChances "A" = 1 := rfl
      unfold segAngleOf
      rw [htw, hget]
      norm_num [mathPI])).1

/-- A concrete session for the C8 witness. -/
def c8session : PlaySession :=
  { galleryId := "g", spinMode := SpinMode.static
    currentChances := [("a", 1), ("b", 2)], originalChances := [("a", 1), ("b", 2)] }

/-- Concrete photos for the C8 witness. -/
def c8photos : List Photo :=
  [{ photoId := "a", chance := 1, categoryId := "c" },
   { photoId := "b", chance := 2, categoryId := "c" }]

theorem C8_witness :
    spinWheel c8session c8photos (1/2) =
      spinScan c8session ((1/2) * totalWeight c8session c8photos) 0
        (eligiblePhotos c8session c8photos) :=
  (C8_spin_wheel_total c8session c8photos (1/2)).2.2
    (le_of_lt one_half_pos) one_half_lt_one

/-- A concrete store for the C10 witness. -/
def c10store : Store := [[("a", 1)]]

/-- A concrete session of references for the C10 witness. -/
def c10session : PlaySessionRef :=
  { galleryId := "g", spinMode := SpinMode.consume
    currentChancesRef := 0, originalChancesRef := 0 }

/-- A concrete gallery for the C10 witness. -/
def c10gallery : Gallery :=
  { galleryId := "g", name := "n", spinMode := SpinMode.consume
    categories := [{ categoryId := "c", name := "cat", color := "#00ff00" }]
    photos := [{ photoId := "a", chance := 1, categoryId := "c" }] }

theorem C10_witness :
    readRef (createPlaySessionSt c10store c10gallery).1 0 = readRef c10store 0 ∧
    readRef (resetPlaySessionSt c10store c10session).1 0 = readRef c10store 0 ∧
    readRef (updateSessionAfterSpinSt c10store c10session "a").1 0
      = readRef c10store 0 ∧
    (updateSessionAfterSpinSt c10store c10session "a").2.originalChancesRef
      = c10session.originalChancesRef ∧
    (c10session.spinMode = SpinMode.static →
      updateSessionAfterSpinSt c10store c10session "a" = (c10store, c10session)) :=
  C10_no_mutation c10store c10gallery c10session "a" 0 (by decide)

end SpinPics
